import Mathlib

/-!
Verification development for the Deep Research Assistant backend: a shallow
embedding of the research pipeline's data model and pure logic, paired with
theorems about its aggregation, scoring, citation and progress behaviour.

Python floats appearing in the scoring code are embedded as exact rationals;
Python dicts that are iterated over are embedded as association lists (Python
3.7+ dicts preserve insertion order); code paths that raise are embedded as
`Option` results.
-/

/-- One retrieved result / source record (a Python result dict), with the
fields the backend reads. A key absent from the dict is embedded as the
corresponding `.get` default. -/
structure SrcRec where
  title : String := "Untitled"
  url : String := ""
  content : String := ""
  score : ℚ := 0.5
  published_date : String := ""
  is_summary : Bool := false
  source_query : String := ""
  data_source : String := ""
  channel : String := ""
  final_score : ℚ := 0
  deriving DecidableEq

/-- One citation source dict as consumed by `CitationManager`
(`url`, `title`, `authors`, `date`, `publisher`). -/
structure CitSource where
  url : String := ""
  title : String := ""
  authors : List String := []
  date : String := ""
  publisher : String := ""
  deriving DecidableEq

/-- Embeds `CitationManager.__init__`: the `citations` list and the
`citation_map` dict from URL to citation number. The dict is an association
list with the newest binding in front; `List.lookup` returns the newest
binding, matching dict assignment semantics. -/
structure CitationManager where
  citations : List CitSource := []
  citation_map : List (String × Nat) := []
  deriving DecidableEq

/-- Embeds `CitationManager.add_citation`: a non-empty URL already in the map
returns the existing number unchanged; otherwise the source is appended, the
number `len(citations) + 1` is assigned, and a non-empty URL is recorded in
the map. -/
def add_citation (cm : CitationManager) (source : CitSource) : Nat × CitationManager :=
  let url := source.url
  match (if url ≠ "" then cm.citation_map.lookup url else none) with
  | some n => (n, cm)
  | none =>
    let n := cm.citations.length + 1
    (n, { citations := cm.citations ++ [source],
          citation_map :=
            if url ≠ "" then (url, n) :: cm.citation_map else cm.citation_map })

/-- The fixed authoritative-domain list of `WebSearcher.score_credibility`. -/
def authoritative_domains : List String :=
  [".edu", ".gov", ".org", "scholar.google", "arxiv.org", "pubmed",
   "ieee.org", "acm.org", "springer", "nature.com", "science.org", "sciencedirect"]

/-- The fixed reputable-news list of `WebSearcher.score_credibility`. -/
def reputable_sources : List String :=
  ["bbc.", "reuters.", "apnews.", "npr.org",
   "economist.", "scientificamerican.", "newscientist."]

/-- The fixed low-credibility list of `WebSearcher.score_credibility`. -/
def low_credibility : List String :=
  ["pinterest.", "quora.", "reddit.", "facebook.", "twitter."]

/-- The fixed research-keyword list of `WebSearcher.score_credibility`. -/
def research_keywords : List String :=
  ["research", "study", "analysis", "journal", "paper"]

/-- Whether `needle` occurs as a contiguous run at some position of `hay`. -/
def hasSubAt (needle : List Char) : List Char → Bool
  | [] => needle.isEmpty
  | c :: cs => needle.isPrefixOf (c :: cs) || hasSubAt needle cs

/-- Embeds the Python substring test `needle in haystack`. -/
def containsSub (hay needle : String) : Bool :=
  hasSubAt needle.toList hay.toList

/-- Embeds `WebSearcher.score_credibility`: base 0.5; each `for ... break`
loop over a fixed list adds its bonus or penalty at most once, i.e. exactly
when some entry of the list occurs in the lowercased URL (or, for keywords,
the lowercased title); the result is clamped to [0, 1]. -/
def score_credibility (result : SrcRec) : ℚ :=
  let url := result.url.toLower
  let title := result.title.toLower
  let score : ℚ := 0.5
  let score := if authoritative_domains.any (fun d => containsSub url d) then score + 0.3 else score
  let score := if reputable_sources.any (fun d => containsSub url d) then score + 0.2 else score
  let score := if low_credibility.any (fun d => containsSub url d) then score - 0.2 else score
  let score := if research_keywords.any (fun k => containsSub title k) then score + 0.1 else score
  max 0 (min 1 score)

/-- Embeds the branch ladder of `ResearchEngine._calculate_recency_score`
on the computed age in days. -/
def recency_of_age (days_old : ℤ) : ℚ :=
  if days_old < 30 then 1.0
  else if days_old < 90 then 0.8
  else if days_old < 180 then 0.6
  else if days_old < 365 then 0.4
  else 0.2

/-- Embeds `ResearchEngine._calculate_recency_score`. The `datetime`
parsing (ISO parse after truncating at `T` and removing `Z`) and the
subtraction from the current time are environment effects, embedded as the
oracle `age`; `age date_str = none` is the `except` branch (unparsable
date), and the empty string is the `if not date_str` branch. -/
def calculate_recency_score (age : String → Option ℤ) (date_str : String) : ℚ :=
  if date_str = "" then 0.3
  else
    match age date_str with
    | none => 0.3
    | some d => recency_of_age d

/-- Embeds the per-source score assignment inside
`ResearchEngine._score_and_rank_sources`:
`final_score = base_score * 0.4 + credibility * 0.4 + recency * 0.1 + channel_bonus`. -/
def compute_final_score (age : String → Option ℤ) (s : SrcRec) : ℚ :=
  s.score * 0.4 + score_credibility s * 0.4 +
    calculate_recency_score age s.published_date * 0.1 +
    (if s.channel = "realtime" then 0.1 else 0)

/-- C3: with a non-empty URL, a second `add_citation` call returns the same
number as the first and leaves the citation-list length unchanged, while the
first call for a not-yet-cited URL grows the list by exactly one; with an
empty URL every call appends a fresh entry numbered `len(citations) + 1`. -/
theorem add_citation_idempotence_by_url :
    ∀ (cm : CitationManager) (s : CitSource),
      (s.url ≠ "" →
        (add_citation (add_citation cm s).2 s).1 = (add_citation cm s).1 ∧
        (cm.citation_map.lookup s.url = none →
          (add_citation cm s).2.citations.length = cm.citations.length + 1) ∧
        (add_citation (add_citation cm s).2 s).2.citations.length
          = (add_citation cm s).2.citations.length) ∧
      (s.url = "" →
        (add_citation cm s).1 = cm.citations.length + 1 ∧
        (add_citation cm s).2.citations.length = cm.citations.length + 1 ∧
        (add_citation (add_citation cm s).2 s).1 = cm.citations.length + 2 ∧
        (add_citation (add_citation cm s).2 s).2.citations.length
          = cm.citations.length + 2) := by
  intro cm s
  constructor
  · intro hurl
    rcases hlook : cm.citation_map.lookup s.url with _ | n
    · simp only [add_citation, if_pos hurl, hlook]
      simp [List.lookup, hurl]
    · simp only [add_citation, if_pos hurl, hlook]
      simp
  · intro hurl
    simp [add_citation, hurl]

/-- C6: the recency score is the step function 1.0 / 0.8 / 0.6 / 0.4 / 0.2 on
age brackets <30 / <90 / <180 / <365 / older, with sentinel 0.3 for a missing
or unparsable date, and it is antitone in age: a strictly younger source never
scores lower. -/
theorem recency_step_function_and_monotone :
    ∀ (age : String → Option ℤ),
      (∀ d : ℤ, d < 30 → recency_of_age d = 1) ∧
      (∀ d : ℤ, 30 ≤ d → d < 90 → recency_of_age d = 0.8) ∧
      (∀ d : ℤ, 90 ≤ d → d < 180 → recency_of_age d = 0.6) ∧
      (∀ d : ℤ, 180 ≤ d → d < 365 → recency_of_age d = 0.4) ∧
      (∀ d : ℤ, 365 ≤ d → recency_of_age d = 0.2) ∧
      calculate_recency_score age "" = 0.3 ∧
      (∀ ds : String, age ds = none → calculate_recency_score age ds = 0.3) ∧
      (∀ d₁ d₂ : ℤ, d₁ < d₂ → recency_of_age d₂ ≤ recency_of_age d₁) := by
  intro age
  refine ⟨?_, ?_, ?_, ?_, ?_, ?_, ?_, ?_⟩
  · intro d h; simp only [recency_of_age, if_pos h]; norm_num
  · intro d h₁ h₂; simp only [recency_of_age]; rw [if_neg (by omega), if_pos h₂]
  · intro d h₁ h₂
    simp only [recency_of_age]
    rw [if_neg (by omega), if_neg (by omega), if_pos h₂]
  · intro d h₁ h₂
    simp only [recency_of_age]
    rw [if_neg (by omega), if_neg (by omega), if_neg (by omega), if_pos h₂]
  · intro d h
    simp only [recency_of_age]
    rw [if_neg (by omega), if_neg (by omega), if_neg (by omega), if_neg (by omega)]
  · simp [calculate_recency_score]
  · intro ds h
    by_cases hds : ds = "" <;> simp [calculate_recency_score, hds, h]
  · intro d₁ d₂ h
    simp only [recency_of_age]
    split_ifs <;> norm_num <;> omega

/-- C6 witness: concrete ages land in the documented brackets and the
younger of two ages never scores lower. -/
theorem recency_step_function_witness :
    recency_of_age 10 = 1 ∧ recency_of_age 100 = 0.6 ∧
    recency_of_age 400 = 0.2 ∧
    calculate_recency_score (fun _ => none) "2020-01-01" = 0.3 := by
  refine ⟨?_, ?_, ?_, ?_⟩
  · exact (recency_step_function_and_monotone (fun _ => none)).1 10 (by norm_num)
  · exact (recency_step_function_and_monotone (fun _ => none)).2.2.1 100
      (by norm_num) (by norm_num)
  · exact (recency_step_function_and_monotone (fun _ => none)).2.2.2.2.1 400 (by norm_num)
  · exact (recency_step_function_and_monotone (fun _ => none)).2.2.2.2.2.2.1
      "2020-01-01" rfl

/-- C5: the credibility score equals the clamp to [0, 1] of base 0.5 plus at
most one authoritative bonus 0.3, plus at most one reputable-news bonus 0.2,
minus at most one low-credibility penalty 0.2, plus at most one
research-keyword bonus 0.1; it always lies in [0, 1], and a source with
non-negative raw score has non-negative final score. -/
theorem score_credibility_clamped_bounds :
    ∀ (age : String → Option ℤ) (r : SrcRec),
      score_credibility r =
        max 0 (min 1 ((0.5 : ℚ)
          + (if authoritative_domains.any (fun d => containsSub r.url.toLower d)
              then 0.3 else 0)
          + (if reputable_sources.any (fun d => containsSub r.url.toLower d)
              then 0.2 else 0)
          - (if low_credibility.any (fun d => containsSub r.url.toLower d)
              then 0.2 else 0)
          + (if research_keywords.any (fun k => containsSub r.title.toLower k)
              then 0.1 else 0))) ∧
      0 ≤ score_credibility r ∧ score_credibility r ≤ 1 ∧
      (0 ≤ r.score → 0 ≤ compute_final_score age r) := by
  intro age r
  have hform : score_credibility r =
      max 0 (min 1 ((0.5 : ℚ)
        + (if authoritative_domains.any (fun d => containsSub r.url.toLower d)
            then 0.3 else 0)
        + (if reputable_sources.any (fun d => containsSub r.url.toLower d)
            then 0.2 else 0)
        - (if low_credibility.any (fun d => containsSub r.url.toLower d)
            then 0.2 else 0)
        + (if research_keywords.any (fun k => containsSub r.title.toLower k)
            then 0.1 else 0))) := by
    simp only [score_credibility]
    split_ifs <;> ring_nf
  have hlo : 0 ≤ score_credibility r := by
    rw [hform]; exact le_max_left 0 _
  have hhi : score_credibility r ≤ 1 := by
    rw [hform]
    exact max_le (by norm_num) (min_le_left 1 _)
  refine ⟨hform, hlo, hhi, ?_⟩
  intro hraw
  have hrec : 0 ≤ calculate_recency_score age r.published_date := by
    simp only [calculate_recency_score]
    split_ifs
    · norm_num
    · rcases age r.published_date with _ | d
      · norm_num
      · simp only [recency_of_age]
        split_ifs <;> norm_num
  have hbonus : 0 ≤ (if r.channel = "realtime" then (0.1 : ℚ) else 0) := by
    split_ifs <;> norm_num
  have h1 : 0 ≤ r.score * 0.4 := by positivity
  have h2 : 0 ≤ score_credibility r * 0.4 := by positivity
  have h3 : 0 ≤ calculate_recency_score age r.published_date * 0.1 := by positivity
  simp only [compute_final_score]
  linarith

/-- C5 witness: a concrete arXiv record scores within bounds and its final
score is non-negative. -/
theorem score_credibility_bounds_witness :
    0 ≤ score_credibility { url := "https://arxiv.org/abs/1", title := "A study", score := 0.9 } ∧
    score_credibility { url := "https://arxiv.org/abs/1", title := "A study", score := 0.9 } ≤ 1 := by
  refine ⟨?_, ?_⟩
  · exact (score_credibility_clamped_bounds (fun _ => none)
      { url := "https://arxiv.org/abs/1", title := "A study", score := 0.9 }).2.1
  · exact (score_credibility_clamped_bounds (fun _ => none)
      { url := "https://arxiv.org/abs/1", title := "A study", score := 0.9 }).2.2.1

/-- Stable descending insertion, embedding one step of Python
`list.sort(key=..., reverse=True)`: the element is placed before the first
position whose key is not larger, so elements with equal keys keep their
original relative order (Python's sort is stable, also with `reverse=True`). -/
def insertDesc {α β : Type} [LinearOrder β] (key : α → β) (a : α) : List α → List α
  | [] => [a]
  | b :: l => if key b ≤ key a then a :: b :: l else b :: insertDesc key a l

/-- Stable descending sort by `key`, embedding
`list.sort(key=..., reverse=True)`. -/
def sortDesc {α β : Type} [LinearOrder β] (key : α → β) : List α → List α
  | [] => []
  | a :: l => insertDesc key a (sortDesc key l)

theorem perm_insertDesc {α β : Type} [LinearOrder β] (key : α → β) (a : α) :
    ∀ l : List α, (insertDesc key a l).Perm (a :: l) := by
  intro l
  induction l with
  | nil => exact List.Perm.refl _
  | cons b l ih =>
    simp only [insertDesc]
    split_ifs with h
    · exact List.Perm.refl _
    · exact (List.Perm.cons b ih).trans (List.Perm.swap a b l)

theorem perm_sortDesc {α β : Type} [LinearOrder β] (key : α → β) :
    ∀ l : List α, (sortDesc key l).Perm l := by
  intro l
  induction l with
  | nil => exact List.Perm.refl _
  | cons a l ih =>
    exact (perm_insertDesc key a (sortDesc key l)).trans (List.Perm.cons a ih)

theorem mem_insertDesc {α β : Type} [LinearOrder β] (key : α → β) (a x : α)
    (l : List α) : x ∈ insertDesc key a l ↔ x = a ∨ x ∈ l := by
  rw [(perm_insertDesc key a l).mem_iff, List.mem_cons]

theorem pairwise_insertDesc {α β : Type} [LinearOrder β] (key : α → β) (a : α)
    {l : List α} (h : l.Pairwise (fun x y => key y ≤ key x)) :
    (insertDesc key a l).Pairwise (fun x y => key y ≤ key x) := by
  induction l with
  | nil => simp [insertDesc]
  | cons b l ih =>
    rw [List.pairwise_cons] at h
    obtain ⟨hb, hl⟩ := h
    simp only [insertDesc]
    split_ifs with hba
    · refine List.Pairwise.cons ?_ (List.Pairwise.cons hb hl)
      intro y hy
      rcases List.mem_cons.1 hy with hy | hy
      · exact hy ▸ hba
      · exact le_trans (hb y hy) hba
    · refine List.Pairwise.cons ?_ (ih hl)
      intro y hy
      rcases (mem_insertDesc key a y l).1 hy with hy | hy
      · exact hy ▸ le_of_lt (lt_of_not_le hba)
      · exact hb y hy

theorem sorted_sortDesc {α β : Type} [LinearOrder β] (key : α → β) :
    ∀ l : List α, (sortDesc key l).Pairwise (fun x y => key y ≤ key x) := by
  intro l
  induction l with
  | nil => simp [sortDesc]
  | cons a l ih => exact pairwise_insertDesc key a ih

theorem filter_insertDesc {α β : Type} [LinearOrder β] [DecidableEq β]
    (key : α → β) (q : β) (a : α) :
    ∀ l : List α,
      (insertDesc key a l).filter (fun x => decide (key x = q)) =
        if key a = q then a :: l.filter (fun x => decide (key x = q))
        else l.filter (fun x => decide (key x = q)) := by
  intro l
  induction l with
  | nil => by_cases h : key a = q <;> simp [insertDesc, List.filter_cons, h]
  | cons b l ih =>
    simp only [insertDesc]
    rcases le_or_lt (key b) (key a) with hba | hab
    · rw [if_pos hba]
      by_cases h : key a = q <;> simp [List.filter_cons, h]
    · rw [if_neg (not_le.mpr hab)]
      by_cases h1 : key a = q <;> by_cases h2 : key b = q
      · exact absurd (h1.trans h2.symm) (ne_of_lt hab)
      · simp [List.filter_cons, h1, h2, ih]
      · simp [List.filter_cons, h1, h2, ih]
      · simp [List.filter_cons, h1, h2, ih]

theorem filter_sortDesc {α β : Type} [LinearOrder β] [DecidableEq β]
    (key : α → β) (q : β) :
    ∀ l : List α,
      (sortDesc key l).filter (fun x => decide (key x = q)) =
        l.filter (fun x => decide (key x = q)) := by
  intro l
  induction l with
  | nil => rfl
  | cons a l ih =>
    simp only [sortDesc]
    rw [filter_insertDesc, ih]
    by_cases h : key a = q <;> simp [List.filter_cons, h]

/-- A permutation with at most one element passing the filter filters to the
same list on both sides. -/
theorem filter_eq_of_perm_of_subsingleton {α : Type} (p : α → Bool)
    {l l' : List α} (h : l.Perm l') (hlen : (l.filter p).length ≤ 1) :
    l.filter p = l'.filter p := by
  have hp := h.filter p
  rcases hfl : l.filter p with _ | ⟨a, t⟩
  · rw [hfl] at hp
    exact (List.perm_nil.1 hp.symm).symm
  · rw [hfl] at hp hlen
    have ht : t = [] := by
      cases t with
      | nil => rfl
      | cons b t => simp at hlen
    subst ht
    exact (List.perm_singleton.1 hp.symm).symm

/-- Tags a record with its originating query
(`result['source_query'] = query`). -/
def tagQuery (q : String) (r : SrcRec) : SrcRec := { r with source_query := q }

/-- Tags a record with the real-time source that produced it
(`result['data_source'] = source`). -/
def tagDataSource (s : String) (r : SrcRec) : SrcRec := { r with data_source := s }

/-- The iteration order of the nested loop in `WebSearcher.aggregate_results`:
dict items in insertion order, each query's results in list order, each record
tagged with its originating query. -/
def flattenTagged : List (String × List SrcRec) → List SrcRec
  | [] => []
  | (q, rs) :: rest => rs.map (tagQuery q) ++ flattenTagged rest

/-- The dedup loop of `WebSearcher.aggregate_results` over the flattened
records: a record is kept iff its URL is non-empty, not yet in `seen_urls`,
and the record is not flagged `is_summary`; the URL of a kept record is added
to `seen_urls`. -/
def dedupByUrl (seen : List String) : List SrcRec → List SrcRec
  | [] => []
  | r :: rs =>
    if r.url ≠ "" ∧ r.url ∉ seen ∧ r.is_summary = false then
      r :: dedupByUrl (r.url :: seen) rs
    else dedupByUrl seen rs

/-- Embeds `WebSearcher.aggregate_results`: flatten and tag, deduplicate by
URL (first occurrence wins) while dropping summary records, then
`aggregated.sort(key=lambda x: x.get('score', 0), reverse=True)`. -/
def WebSearcher.aggregate_results (multi : List (String × List SrcRec)) : List SrcRec :=
  sortDesc (fun r => r.score) (dedupByUrl [] (flattenTagged multi))

/-- The flattening of `DataSourceAggregator.aggregate_results`, each record
tagged with its source name. -/
def flattenSourceTagged : List (String × List SrcRec) → List SrcRec
  | [] => []
  | (s, rs) :: rest => rs.map (tagDataSource s) ++ flattenSourceTagged rest

/-- Embeds `DataSourceAggregator.aggregate_results`: flatten and tag with
`data_source`, then `sort(key=lambda x: x.get('published_date', ''),
reverse=True)`; the code performs no deduplication, no summary exclusion and
no score sort. -/
def DataSourceAggregator.aggregate_results
    (multi : List (String × List SrcRec)) : List SrcRec :=
  sortDesc (fun r => r.published_date) (flattenSourceTagged multi)

theorem dedupByUrl_mem {r : SrcRec} :
    ∀ (l : List SrcRec) (seen : List String), r ∈ dedupByUrl seen l →
      r.url ≠ "" ∧ r.is_summary = false ∧ r.url ∉ seen ∧ r ∈ l := by
  intro l
  induction l with
  | nil => intro seen h; simp [dedupByUrl] at h
  | cons a l ih =>
    intro seen h
    simp only [dedupByUrl] at h
    split_ifs at h with hk
    · rcases List.mem_cons.1 h with h | h
      · subst h
        exact ⟨hk.1, hk.2.2, hk.2.1, List.mem_cons_self _ _⟩
      · obtain ⟨h1, h2, h3, h4⟩ := ih (a.url :: seen) h
        exact ⟨h1, h2, fun hs => h3 (List.mem_cons_of_mem _ hs),
          List.mem_cons_of_mem _ h4⟩
    · obtain ⟨h1, h2, h3, h4⟩ := ih seen h
      exact ⟨h1, h2, h3, List.mem_cons_of_mem _ h4⟩

theorem dedupByUrl_urls_nodup :
    ∀ (l : List SrcRec) (seen : List String),
      ((dedupByUrl seen l).map (fun r => r.url)).Nodup := by
  intro l
  induction l with
  | nil => intro seen; simp [dedupByUrl]
  | cons a l ih =>
    intro seen
    simp only [dedupByUrl]
    split_ifs with hk
    · simp only [List.map_cons, List.nodup_cons]
      refine ⟨?_, ih (a.url :: seen)⟩
      intro hmem
      obtain ⟨r, hr, hru⟩ := List.mem_map.1 hmem
      exact (dedupByUrl_mem l (a.url :: seen) hr).2.2.1
        (hru ▸ List.mem_cons_self a.url seen)
    · exact ih seen

theorem dedupByUrl_filter_url {u : String} (hu : u ≠ "") :
    ∀ (l : List SrcRec) (seen : List String),
      (dedupByUrl seen l).filter (fun r => decide (r.url = u)) =
        if u ∈ seen then []
        else (l.filter (fun r => decide (r.is_summary = false ∧ r.url = u))).take 1 := by
  intro l
  induction l with
  | nil => intro seen; by_cases h : u ∈ seen <;> simp [dedupByUrl, h]
  | cons a l ih =>
    intro seen
    simp only [dedupByUrl]
    by_cases hk : a.url ≠ "" ∧ a.url ∉ seen ∧ a.is_summary = false
    · rw [if_pos hk]
      by_cases hau : a.url = u
      · have hus : u ∉ seen := hau ▸ hk.2.1
        have hih := ih (a.url :: seen)
        rw [if_pos (hau ▸ List.mem_cons_self a.url seen)] at hih
        rw [hau] at hih
        simp [List.filter_cons, hau, hk.2.2, hih, hus]
      · by_cases hm : u ∈ seen
        · have hih := ih (a.url :: seen)
          rw [if_pos (List.mem_cons_of_mem _ hm)] at hih
          simp [List.filter_cons, hau, hih, hm]
        · have hnm : u ∉ a.url :: seen := by
            intro h
            rcases List.mem_cons.1 h with h | h
            · exact hau h.symm
            · exact hm h
          have hih := ih (a.url :: seen)
          rw [if_neg hnm] at hih
          have hp : ¬(a.is_summary = false ∧ a.url = u) := fun h => hau h.2
          simp [List.filter_cons, hau, hih, hm, hp]
    · rw [if_neg hk, ih seen]
      by_cases hm : u ∈ seen
      · simp [hm]
      · have hp : ¬(a.is_summary = false ∧ a.url = u) := by
          rintro ⟨hs, hau⟩
          refine hk ⟨hau ▸ hu, ?_, hs⟩
          intro hin
          exact hm (hau ▸ hin)
        simp [List.filter_cons, hm, hp]

/-- C1 (amended): the web-search aggregator keeps no two records with the same
URL, keeps only records with a non-empty URL and without the summary flag,
sorts descending by raw relevance score, and for each non-empty URL keeps
exactly the first eligible flattened occurrence; the real-time aggregator only
flattens (tagging each record with its source), performing no deduplication
and no summary exclusion, and stably sorts descending by the
`published_date` string. -/
theorem aggregate_results_dedup_sorted :
    (∀ multi : List (String × List SrcRec),
      ((WebSearcher.aggregate_results multi).map (fun r => r.url)).Nodup ∧
      (∀ r ∈ WebSearcher.aggregate_results multi,
        r.url ≠ "" ∧ r.is_summary = false) ∧
      (WebSearcher.aggregate_results multi).Pairwise
        (fun a b => b.score ≤ a.score) ∧
      (∀ u : String, u ≠ "" →
        (WebSearcher.aggregate_results multi).filter (fun r => decide (r.url = u)) =
          ((flattenTagged multi).filter
            (fun r => decide (r.is_summary = false ∧ r.url = u))).take 1)) ∧
    (∀ multi : List (String × List SrcRec),
      (DataSourceAggregator.aggregate_results multi).Perm
        (flattenSourceTagged multi) ∧
      (DataSourceAggregator.aggregate_results multi).Pairwise
        (fun a b => b.published_date ≤ a.published_date) ∧
      (∀ d : String,
        (DataSourceAggregator.aggregate_results multi).filter
            (fun r => decide (r.published_date = d)) =
          (flattenSourceTagged multi).filter
            (fun r => decide (r.published_date = d)))) := by
  constructor
  · intro multi
    have hperm : (WebSearcher.aggregate_results multi).Perm
        (dedupByUrl [] (flattenTagged multi)) :=
      perm_sortDesc (fun r : SrcRec => r.score) _
    refine ⟨?_, ?_, ?_, ?_⟩
    · exact ((hperm.map (fun r => r.url)).nodup_iff).2
        (dedupByUrl_urls_nodup (flattenTagged multi) [])
    · intro r hr
      have := dedupByUrl_mem (flattenTagged multi) [] (hperm.mem_iff.1 hr)
      exact ⟨this.1, this.2.1⟩
    · exact sorted_sortDesc (fun r : SrcRec => r.score) _
    · intro u hu
      have hded := dedupByUrl_filter_url hu (flattenTagged multi) []
      rw [if_neg (List.not_mem_nil u)] at hded
      have hlen : ((dedupByUrl [] (flattenTagged multi)).filter
          (fun r => decide (r.url = u))).length ≤ 1 := by
        rw [hded, List.length_take]
        exact min_le_left 1 _
      calc (WebSearcher.aggregate_results multi).filter (fun r => decide (r.url = u))
          = (dedupByUrl [] (flattenTagged multi)).filter (fun r => decide (r.url = u)) :=
            (filter_eq_of_perm_of_subsingleton _ hperm.symm hlen).symm
        _ = ((flattenTagged multi).filter
              (fun r => decide (r.is_summary = false ∧ r.url = u))).take 1 := hded
  · intro multi
    refine ⟨perm_sortDesc (fun r : SrcRec => r.published_date) _,
      sorted_sortDesc (fun r : SrcRec => r.published_date) _, ?_⟩
    intro d
    exact filter_sortDesc (fun r : SrcRec => r.published_date) d _

/-- C1 counterexample: the real-time aggregator does not deduplicate by URL —
two records with the same non-empty URL from one source both survive
aggregation, so the claimed dedup property fails for the real-time source
aggregator. -/
theorem realtime_aggregate_no_dedup_counterexample :
    (DataSourceAggregator.aggregate_results
        [("arxiv", [{ url := "u", title := "t1" },
                    { url := "u", title := "t2" }])]).map
      (fun r => r.url) = ["u", "u"] ∧
    ¬ (["u", "u"] : List String).Nodup := by
  constructor
  · simp [DataSourceAggregator.aggregate_results, flattenSourceTagged,
      sortDesc, insertDesc, tagDataSource]
  · decide

/-- The enrichment each source receives in
`ResearchEngine._score_and_rank_sources`. -/
def scoreSource (age : String → Option ℤ) (s : SrcRec) : SrcRec :=
  { s with final_score := compute_final_score age s }

/-- Embeds `ResearchEngine._score_and_rank_sources` (the `topic` argument is
unused by the code): assign each source its composite `final_score`, then
`sources.sort(key=lambda x: x.get('final_score', 0), reverse=True)`. -/
def score_and_rank_sources (age : String → Option ℤ) (sources : List SrcRec)
    (topic : String) : List SrcRec :=
  sortDesc (fun r => r.final_score) (sources.map (scoreSource age))

/-- C4: each ranked source carries
`final_score = 0.4 * rawScore + 0.4 * credibility + 0.1 * recency + channelBonus`
with a 0.1 bonus exactly for the realtime channel; the output is sorted
descending by `final_score`; and the sort is stable — for every score value,
the output's records with that score appear in their pre-sort relative
order. -/
theorem score_and_rank_formula_sorted_stable :
    (∀ (age : String → Option ℤ) (s : SrcRec),
      (scoreSource age s).final_score =
        0.4 * s.score + 0.4 * score_credibility s +
          0.1 * calculate_recency_score age s.published_date +
          (if s.channel = "realtime" then 0.1 else 0)) ∧
    (∀ (age : String → Option ℤ) (sources : List SrcRec) (topic : String),
      (score_and_rank_sources age sources topic).Pairwise
        (fun a b => b.final_score ≤ a.final_score)) ∧
    (∀ (age : String → Option ℤ) (sources : List SrcRec) (topic : String) (q : ℚ),
      (score_and_rank_sources age sources topic).filter
          (fun s => decide (s.final_score = q)) =
        (sources.map (scoreSource age)).filter
          (fun s => decide (s.final_score = q))) := by
  refine ⟨?_, ?_, ?_⟩
  · intro age s
    simp only [scoreSource, compute_final_score]
    ring
  · intro age sources topic
    exact sorted_sortDesc (fun r : SrcRec => r.final_score) _
  · intro age sources topic q
    exact filter_sortDesc (fun r : SrcRec => r.final_score) q _

/-- Embeds the synthetic summary record that `WebSearcher.search` prepends
when the response carries an answer: title `AI Summary`, empty URL, score 1.0,
flagged `is_summary`. -/
def ai_summary_record (answer : String) (now_iso : String) : SrcRec :=
  { title := "AI Summary", url := "", content := answer, score := 1,
    published_date := now_iso, is_summary := true }

/-- Embeds the tail of `WebSearcher.search`: `results.insert(0, summary)`
exactly when the response's `answer` is present and truthy (non-empty). -/
def search_postprocess (results : List SrcRec) (answer : Option String)
    (now_iso : String) : List SrcRec :=
  match answer with
  | some a => if a ≠ "" then ai_summary_record a now_iso :: results else results
  | none => results

/-- C9: every record returned by `WebSearcher.aggregate_results` has a
non-empty URL (URL-less records are dropped entirely, not merely
deduplicated); in particular the synthetic `AI Summary` record that `search`
prepends has URL `""` and the summary flag, and never survives
aggregation. -/
theorem aggregate_results_urls_nonempty :
    (∀ multi : List (String × List SrcRec),
      ∀ r ∈ WebSearcher.aggregate_results multi, r.url ≠ "") ∧
    (∀ answer now_iso : String,
      (ai_summary_record answer now_iso).url = "" ∧
      (ai_summary_record answer now_iso).is_summary = true) ∧
    (∀ (answer now_iso : String) (results : List SrcRec), answer ≠ "" →
      search_postprocess results (some answer) now_iso =
        ai_summary_record answer now_iso :: results) ∧
    (∀ (multi : List (String × List SrcRec)) (answer now_iso : String),
      ai_summary_record answer now_iso ∉ WebSearcher.aggregate_results multi) := by
  have hmain : ∀ multi : List (String × List SrcRec),
      ∀ r ∈ WebSearcher.aggregate_results multi, r.url ≠ "" := by
    intro multi r hr
    have hperm : (WebSearcher.aggregate_results multi).Perm
        (dedupByUrl [] (flattenTagged multi)) :=
      perm_sortDesc (fun r : SrcRec => r.score) _
    exact (dedupByUrl_mem (flattenTagged multi) [] (hperm.mem_iff.1 hr)).1
  refine ⟨hmain, fun answer now_iso => ⟨rfl, rfl⟩, ?_, ?_⟩
  · intro answer now_iso results h
    simp [search_postprocess, h]
  · intro multi answer now_iso hmem
    exact hmain multi _ hmem rfl

/-- One event of the SSE stream produced by `main.research_stream.generate`. -/
inductive SSEEvent where
  | progress (percent : Nat) (message : String)
  | complete
  | error (msg : String)
  deriving DecidableEq

/-- Whether an event ends the stream (`generate` breaks on these). -/
def isTerminalEvent : SSEEvent → Bool
  | SSEEvent.progress _ _ => false
  | SSEEvent.complete => true
  | SSEEvent.error _ => true

/-- The fixed progress schedule of `ResearchEngine.conduct_research`: the
twelve `_update_progress` calls, in program order. -/
def progress_schedule : List (Nat × String) :=
  [(0, "Starting research..."),
   (10, "Generating search queries..."),
   (20, "Performing web searches..."),
   (35, "Fetching real-time data from academic sources..."),
   (45, "Analyzing and scoring sources..."),
   (55, "Indexing content for retrieval..."),
   (65, "Analyzing content relevance..."),
   (70, "Retrieving relevant context..."),
   (75, "Synthesizing research findings..."),
   (85, "Formatting citations..."),
   (90, "Generating bibliography..."),
   (100, "Research complete!")]

/-- Embeds the control flow of `ResearchEngine.conduct_research` as far as
progress reporting goes: each stage emits exactly one fixed progress update
before its body runs. The ten fallible stage bodies (query generation, web
search, real-time fetch, scoring, indexing, analysis, retrieval, synthesis,
citation, bibliography) are environment effects, embedded as the oracle
`st`: `st i = some e` means the body after the `(i+1)`-th update raises `e`,
which aborts the run after the updates already emitted. Returns the emitted
updates and the propagated error, if any. -/
def conduct_research_trace (st : Fin 10 → Option String) :
    List (Nat × String) × Option String :=
  let acc := [(0, "Starting research..."), (10, "Generating search queries...")]
  match st 0 with
  | some e => (acc, some e)
  | none =>
  let acc := acc ++ [(20, "Performing web searches...")]
  match st 1 with
  | some e => (acc, some e)
  | none =>
  let acc := acc ++ [(35, "Fetching real-time data from academic sources...")]
  match st 2 with
  | some e => (acc, some e)
  | none =>
  let acc := acc ++ [(45, "Analyzing and scoring sources...")]
  match st 3 with
  | some e => (acc, some e)
  | none =>
  let acc := acc ++ [(55, "Indexing content for retrieval...")]
  match st 4 with
  | some e => (acc, some e)
  | none =>
  let acc := acc ++ [(65, "Analyzing content relevance...")]
  match st 5 with
  | some e => (acc, some e)
  | none =>
  let acc := acc ++ [(70, "Retrieving relevant context...")]
  match st 6 with
  | some e => (acc, some e)
  | none =>
  let acc := acc ++ [(75, "Synthesizing research findings...")]
  match st 7 with
  | some e => (acc, some e)
  | none =>
  let acc := acc ++ [(85, "Formatting citations...")]
  match st 8 with
  | some e => (acc, some e)
  | none =>
  let acc := acc ++ [(90, "Generating bibliography...")]
  match st 9 with
  | some e => (acc, some e)
  | none =>
  (acc ++ [(100, "Research complete!")], none)

/-- Embeds `main.research_stream.generate`: the FIFO queue preserves order,
the progress callback turns each update into a `progress` event, and
`run_research` enqueues exactly one terminal event — `complete` on success,
`error e` when the research raised `e` — after which the stream breaks. -/
def generate_events (st : Fin 10 → Option String) : List SSEEvent :=
  let t := conduct_research_trace st
  t.1.map (fun pm => SSEEvent.progress pm.1 pm.2) ++
    [match t.2 with
     | none => SSEEvent.complete
     | some e => SSEEvent.error e]

/-- C7: a fully successful run emits exactly the fixed percent sequence
0, 10, 20, 35, 45, 55, 65, 70, 75, 85, 90, 100; in every run (also one
aborted by a stage failure) the emitted percents are non-decreasing; and the
event stream ends with exactly one terminal event — `complete` carrying the
result on success, `error` with the error text otherwise. -/
theorem conduct_research_progress_monotone_single_terminal :
    (∀ st : Fin 10 → Option String, (∀ i, st i = none) →
      (conduct_research_trace st).1 = progress_schedule) ∧
    (∀ st : Fin 10 → Option String,
      List.Chain' (fun a b => a ≤ b)
        ((conduct_research_trace st).1.map Prod.fst)) ∧
    (∀ st : Fin 10 → Option String,
      ((generate_events st).filter isTerminalEvent).length = 1) ∧
    (∀ st : Fin 10 → Option String,
      (generate_events st).getLast? =
        some (match (conduct_research_trace st).2 with
              | none => SSEEvent.complete
              | some e => SSEEvent.error e)) := by
  refine ⟨?_, ?_, ?_, ?_⟩
  · intro st h
    simp [conduct_research_trace, h, progress_schedule]
  · intro st
    simp only [conduct_research_trace]
    cases st 0 with
    | some e0 => simp [List.chain'_cons]
    | none =>
      cases st 1 with
      | some e1 => simp [List.chain'_cons]
      | none =>
        cases st 2 with
        | some e2 => simp [List.chain'_cons]
        | none =>
          cases st 3 with
          | some e3 => simp [List.chain'_cons]
          | none =>
            cases st 4 with
            | some e4 => simp [List.chain'_cons]
            | none =>
              cases st 5 with
              | some e5 => simp [List.chain'_cons]
              | none =>
                cases st 6 with
                | some e6 => simp [List.chain'_cons]
                | none =>
                  cases st 7 with
                  | some e7 => simp [List.chain'_cons]
                  | none =>
                    cases st 8 with
                    | some e8 => simp [List.chain'_cons]
                    | none =>
                      cases st 9 with
                      | some e9 => simp [List.chain'_cons]
                      | none => simp [List.chain'_cons]
  · intro st
    simp only [generate_events, conduct_research_trace]
    cases st 0 with
    | some e0 => rfl
    | none =>
      cases st 1 with
      | some e1 => rfl
      | none =>
        cases st 2 with
        | some e2 => rfl
        | none =>
          cases st 3 with
          | some e3 => rfl
          | none =>
            cases st 4 with
            | some e4 => rfl
            | none =>
              cases st 5 with
              | some e5 => rfl
              | none =>
                cases st 6 with
                | some e6 => rfl
                | none =>
                  cases st 7 with
                  | some e7 => rfl
                  | none =>
                    cases st 8 with
                    | some e8 => rfl
                    | none =>
                      cases st 9 with
                      | some e9 => rfl
                      | none => rfl
  · intro st
    simp only [generate_events, conduct_research_trace]
    cases st 0 with
    | some e0 => rfl
    | none =>
      cases st 1 with
      | some e1 => rfl
      | none =>
        cases st 2 with
        | some e2 => rfl
        | none =>
          cases st 3 with
          | some e3 => rfl
          | none =>
            cases st 4 with
            | some e4 => rfl
            | none =>
              cases st 5 with
              | some e5 => rfl
              | none =>
                cases st 6 with
                | some e6 => rfl
                | none =>
                  cases st 7 with
                  | some e7 => rfl
                  | none =>
                    cases st 8 with
                    | some e8 => rfl
                    | none =>
                      cases st 9 with
                      | some e9 => rfl
                      | none => rfl

/-- C7 witness: a concrete all-success run emits the full schedule, and a
concrete run whose fourth stage body fails still has non-decreasing percents
and a single terminal error event. -/
theorem conduct_research_progress_witness :
    (conduct_research_trace (fun _ => none)).1 = progress_schedule ∧
    ((generate_events (fun i => if i.1 = 3 then some "boom" else none)).filter
        isTerminalEvent).length = 1 := by
  constructor
  · exact conduct_research_progress_monotone_single_terminal.1
      (fun _ => none) (fun _ => rfl)
  · exact conduct_research_progress_monotone_single_terminal.2.2.1
      (fun i => if i.1 = 3 then some "boom" else none)

/-- The engine configuration touched by the depth variants
(`self.max_queries`). -/
structure EngineConfig where
  max_queries : Nat
  deriving DecidableEq

/-- Embeds `ResearchEngine.quick_research`: saves `max_queries`, overrides
it to 3, runs `conduct_research`, and restores the saved value only on
normal return. The restore is not in a `finally` block, so when
`conduct_research` raises (`runRaises = true`) the exception propagates with
the override still in place. Returns the engine configuration after the call
and the outcome. -/
def quick_research (runRaises : Bool) (cfg : EngineConfig) :
    EngineConfig × Except String Unit :=
  let original_max := cfg.max_queries
  let cfg := { cfg with max_queries := 3 }
  if runRaises then (cfg, Except.error "conduct_research raised")
  else ({ cfg with max_queries := original_max }, Except.ok ())

/-- Embeds `ResearchEngine.deep_research`: same shape as `quick_research`
with override 8. -/
def deep_research (runRaises : Bool) (cfg : EngineConfig) :
    EngineConfig × Except String Unit :=
  let original_max := cfg.max_queries
  let cfg := { cfg with max_queries := 8 }
  if runRaises then (cfg, Except.error "conduct_research raised")
  else ({ cfg with max_queries := original_max }, Except.ok ())

/-- C2: the depth-variant override is restored on normal return, but when
`conduct_research` raises inside `quick_research`/`deep_research` the
engine is left with `max_queries` = 3 resp. 8 instead of the saved value 5:
the restoration is skipped on the exception path (no `try`/`finally`), so
the override persists across runs exactly in the failing case the claim
requires it not to. -/
theorem depth_override_not_restored_on_error :
    (quick_research false ⟨5⟩).1.max_queries = 5 ∧
    (deep_research false ⟨5⟩).1.max_queries = 5 ∧
    (quick_research true ⟨5⟩).1.max_queries = 3 ∧
    (quick_research true ⟨5⟩).2 = Except.error "conduct_research raised" ∧
    (deep_research true ⟨5⟩).1.max_queries = 8 ∧
    (deep_research true ⟨5⟩).2 = Except.error "conduct_research raised" := by
  exact ⟨rfl, rfl, rfl, rfl, rfl, rfl⟩

/-- Splits `text` at the first position where `pat` occurs: the part before
the occurrence and the remainder (which starts with `pat`), or `none` when
`pat` does not occur. This is where `re.sub` anchors the leftmost match of
the escaped (hence literal) pattern. -/
def splitAtSub (pat : List Char) : List Char → Option (List Char × List Char)
  | [] => if pat.isEmpty then some ([], []) else none
  | c :: cs =>
    if pat.isPrefixOf (c :: cs) then some ([], c :: cs)
    else (splitAtSub pat cs).map (fun p => (c :: p.1, p.2))

/-- Embeds one `re.sub` call of `CitationManager.insert_citations`, i.e.
`re.sub(f"({pattern}[^\\[]*)", f"\\1 [{num}]", text, count=1)` with `pattern`
the escaped title piece: at the leftmost occurrence of the literal pattern
the match extends greedily over the following characters up to (but not
including) the next `[` or the end of text, and the replacement re-emits the
matched span followed by a space and the marker `[num]`. Without an
occurrence the text is unchanged. -/
def subTitleOnce (pat : List Char) (num : Nat) (text : List Char) : List Char :=
  match splitAtSub pat text with
  | none => text
  | some (before, rest) =>
    let afterPat := rest.drop pat.length
    let span := afterPat.takeWhile (fun c => c ≠ '[')
    let tail := afterPat.dropWhile (fun c => c ≠ '[')
    before ++ pat ++ span ++
      (" [".toList ++ (toString num).toList ++ "]".toList) ++ tail

/-- Embeds `CitationManager.insert_citations`: for each source in iteration
order, register it via `add_citation`; when its title is non-empty and longer
than 10 characters, substitute the citation marker once, using the title's
first 50 characters as the pattern; the modified text is threaded through
subsequent sources. -/
def insert_citations (cm : CitationManager) (text : String)
    (sources : List CitSource) : String × CitationManager :=
  sources.foldl
    (fun acc s =>
      let r := add_citation acc.2 s
      if s.title ≠ "" ∧ s.title.length > 10 then
        (String.mk (subTitleOnce (s.title.toList.take 50) r.1 acc.1.toList), r.2)
      else (acc.1, r.2))
    (text, cm)

/-- C8 counterexample: when text follows the matched title and contains no
`[`, the code appends the marker after that following text (the regex span
`pattern[^\[]*` is greedy), not immediately after the occurrence of the
title's first 50 characters as the claim states. -/
theorem insert_citations_marker_placement_counterexample :
    (insert_citations { citations := [], citation_map := [] }
        "Graphene batteries show promise today."
        [{ title := "Graphene batteries show promise", url := "u1" }]).1 =
      "Graphene batteries show promise today. [1]" ∧
    (insert_citations { citations := [], citation_map := [] }
        "Graphene batteries show promise today."
        [{ title := "Graphene batteries show promise", url := "u1" }]).1 ≠
      "Graphene batteries show promise [1] today." := by
  constructor
  · rfl
  · decide

theorem insert_citations_manager_thread :
    ∀ (sources : List CitSource) (cm : CitationManager) (text : String),
      (insert_citations cm text sources).2 =
        sources.foldl (fun c s => (add_citation c s).2) cm := by
  intro sources
  induction sources with
  | nil => intro cm text; rfl
  | cons s rest ih =>
    intro cm text
    simp only [insert_citations, List.foldl_cons]
    split_ifs with hc
    · exact ih _ _
    · exact ih _ _

/-- C8 (amended): each source is registered via `add_citation` in iteration
order independently of matching; when the title exceeds 10 characters and its
first 50 characters first occur at a given position, the marker
`[N]` (preceded by a space) is appended after the span that starts there and
extends through every following character up to the next `[` or the end of
the text; a title whose 50-character pattern does not occur, or a title of at
most 10 characters, leaves the text unchanged while the source is still
registered. -/
theorem insert_citations_amended :
    (∀ (sources : List CitSource) (cm : CitationManager) (text : String),
      (insert_citations cm text sources).2 =
        sources.foldl (fun c s => (add_citation c s).2) cm) ∧
    (∀ (cm : CitationManager) (s : CitSource) (txtPre txtPost : List Char),
      s.title.length > 10 →
      splitAtSub (s.title.toList.take 50)
          (txtPre ++ s.title.toList.take 50 ++ txtPost) =
        some (txtPre, s.title.toList.take 50 ++ txtPost) →
      (insert_citations cm
          (String.mk (txtPre ++ s.title.toList.take 50 ++ txtPost)) [s]).1 =
        String.mk (txtPre ++ s.title.toList.take 50 ++
          txtPost.takeWhile (fun c => c ≠ '[') ++
          (" [".toList ++ (toString (add_citation cm s).1).toList ++ "]".toList) ++
          txtPost.dropWhile (fun c => c ≠ '['))) ∧
    (∀ (cm : CitationManager) (text : String) (s : CitSource),
      s.title.length > 10 →
      splitAtSub (s.title.toList.take 50) text.toList = none →
      (insert_citations cm text [s]).1 = text) ∧
    (∀ (cm : CitationManager) (text : String) (s : CitSource),
      ¬(s.title ≠ "" ∧ s.title.length > 10) →
      (insert_citations cm text [s]).1 = text ∧
      (insert_citations cm text [s]).2 = (add_citation cm s).2) := by
  have hmk : ∀ t : String, String.mk t.toList = t := fun t => rfl
  have hne : ∀ s : CitSource, s.title.length > 10 → s.title ≠ "" := by
    intro s h hcon
    rw [hcon] at h
    simp at h
  refine ⟨insert_citations_manager_thread, ?_, ?_, ?_⟩
  · intro cm s txtPre txtPost hlen hsplit
    simp only [insert_citations, List.foldl_cons, List.foldl_nil,
      if_pos (And.intro (hne s hlen) hlen)]
    congr 1
    show subTitleOnce (s.title.toList.take 50) (add_citation cm s).1
        (String.mk (txtPre ++ s.title.toList.take 50 ++ txtPost)).toList = _
    have : (String.mk (txtPre ++ s.title.toList.take 50 ++ txtPost)).toList =
        txtPre ++ s.title.toList.take 50 ++ txtPost := rfl
    rw [this]
    simp only [subTitleOnce, hsplit]
    rw [List.drop_left]
  · intro cm text s hlen hsplit
    simp only [insert_citations, List.foldl_cons, List.foldl_nil,
      if_pos (And.intro (hne s hlen) hlen)]
    show String.mk (subTitleOnce (s.title.toList.take 50)
        (add_citation cm s).1 text.toList) = text
    simp only [subTitleOnce, hsplit]
    exact hmk text
  · intro cm text s hc
    simp only [insert_citations, List.foldl_cons, List.foldl_nil, if_neg hc]
    exact ⟨trivial, trivial⟩

/-- Embeds Python `str.split()` with no separator (as used in
`_format_author_name` after `strip()`): split on runs of whitespace,
producing no empty words; `acc` holds the current word reversed. -/
def pySplitAux : List Char → List Char → List (List Char)
  | [], acc => if acc.isEmpty then [] else [acc.reverse]
  | c :: cs, acc =>
    if c.isWhitespace then
      if acc.isEmpty then pySplitAux cs [] else acc.reverse :: pySplitAux cs []
    else pySplitAux cs (c :: acc)

/-- Embeds `name.strip().split()`. -/
def pySplit (s : List Char) : List (List Char) := pySplitAux s []

/-- Embeds `' '.join`. -/
def joinSpace : List String → String
  | [] => ""
  | [s] => s
  | s :: rest => s ++ " " ++ joinSpace rest

/-- The initials `p[0] + '.'` of the given name parts
(`[p[0] + '.' for p in parts[:-1]]`); `none` embeds the `IndexError` an
empty part would raise on `p[0]`. -/
def initialsOf : List (List Char) → Option (List String)
  | [] => some []
  | p :: rest =>
    match p.head?, initialsOf rest with
    | some c, some rs => some (String.mk [c, '.'] :: rs)
    | _, _ => none

/-- Embeds `CitationManager._format_author_name`, with `none` for the
`IndexError` path: a falsy (empty) name yields `Anonymous`; otherwise the
name is stripped and split on whitespace; one part is returned whole; two
parts become `F. Last` via `parts[0][0]`; three or more become the initials
of all but the last part followed by the last part via `parts[-1]`. A
whitespace-only name passes the falsy guard, splits into zero parts, and
reaches `parts[-1]` on an empty list — an `IndexError`, embedded as
`none`. -/
def format_author_name (name : String) : Option String :=
  if name = "" then some "Anonymous"
  else
    match pySplit name.toList with
    | [] => none
    | [p] => some (String.mk p)
    | [p1, p2] =>
      match p1.head? with
      | some c => some (String.mk [c] ++ ". " ++ String.mk p2)
      | none => none
    | parts =>
      match parts.getLast?, initialsOf parts.dropLast with
      | some last, some initials =>
        some (joinSpace initials ++ " " ++ String.mk last)
      | _, _ => none

/-- Embeds `CitationManager._format_date`. The `datetime.fromisoformat`
parse together with the `strftime("%b. %Y")` rendering is an environment
effect, embedded as the oracle `monthYear` applied to the date string
truncated at `T` and with every `Z` removed; a parse failure (`none`)
returns the (already `T`-truncated) string unchanged, and an empty date
yields the empty string. -/
def format_date (monthYear : String → Option String) (date_str : String) : String :=
  if date_str = "" then ""
  else
    let ds := if date_str.toList.contains 'T'
      then String.mk (date_str.toList.takeWhile (fun c => c ≠ 'T'))
      else date_str
    match monthYear (String.mk (ds.toList.filter (fun c => c ≠ 'Z'))) with
    | some m => m
    | none => ds

/-- Embeds `CitationManager.format_citation` for sources whose `authors`
field is a list of strings (the claim's scope); `none` embeds a propagated
`IndexError` from author formatting. An empty `authors` list yields
`Anonymous`; one author is formatted alone; two are joined with `and`;
three or more use the first author plus `et al.`. The parts are joined with
single spaces, with publisher, date and URL segments included only when
non-empty. -/
def format_citation (monthYear : String → Option String)
    (source : CitSource) (citation_num : Nat) : Option String :=
  let author_str? : Option String :=
    match source.authors with
    | [] => some "Anonymous"
    | [a] => format_author_name a
    | [a, b] =>
      match format_author_name a, format_author_name b with
      | some fa, some fb => some (fa ++ " and " ++ fb)
      | _, _ => none
    | a :: _ => (format_author_name a).map (fun fa => fa ++ " et al.")
  match author_str? with
  | none => none
  | some author_str =>
    let date_str := format_date monthYear source.date
    let parts := ["[" ++ toString citation_num ++ "]", author_str]
    let parts := parts ++ ["\"" ++ source.title ++ ",\""]
    let parts := if source.publisher ≠ ""
      then parts ++ [source.publisher ++ ","] else parts
    let parts := if date_str ≠ "" then parts ++ [date_str ++ "."] else parts
    let parts := if source.url ≠ ""
      then parts ++ ["[Online]. Available: " ++ source.url] else parts
    some (joinSpace parts)

/-- C10 counterexample: an author name consisting only of whitespace passes
the falsy guard in `_format_author_name`, splits into zero tokens, and makes
`format_citation` raise (`none`) instead of returning a formatted string —
the function is not total over author lists of strings. -/
theorem format_citation_whitespace_author_counterexample :
    format_citation (fun _ => none)
      { url := "u", title := "T", authors := ["   "] } 1 = none := by
  rfl

theorem pySplitAux_words_nonempty :
    ∀ (s acc : List Char), ∀ w ∈ pySplitAux s acc, w ≠ [] := by
  intro s
  induction s with
  | nil =>
    intro acc w hw
    simp only [pySplitAux] at hw
    rcases acc with _ | ⟨a, as⟩
    · simp at hw
    · simp only [List.isEmpty_cons, if_neg] at hw
      simp at hw
      subst hw
      simp
  | cons c cs ih =>
    intro acc w hw
    simp only [pySplitAux] at hw
    split_ifs at hw with h1 h2
    · exact ih [] w hw
    · rcases List.mem_cons.1 hw with hw | hw
      · subst hw
        intro hcon
        rw [List.reverse_eq_nil_iff] at hcon
        subst hcon
        simp at h2
      · exact ih [] w hw
    · exact ih (c :: acc) w hw

theorem pySplitAux_ne_nil_of_acc :
    ∀ (s acc : List Char), acc ≠ [] → pySplitAux s acc ≠ [] := by
  intro s
  induction s with
  | nil =>
    intro acc hacc
    rcases acc with _ | ⟨a, as⟩
    · exact absurd rfl hacc
    · simp [pySplitAux]
  | cons c cs ih =>
    intro acc hacc
    rcases acc with _ | ⟨a, as⟩
    · exact absurd rfl hacc
    · simp only [pySplitAux, List.isEmpty_cons, Bool.false_eq_true, if_false]
      split_ifs with h1
      · simp
      · exact ih (c :: a :: as) (by simp)

theorem pySplitAux_ne_nil_of_content :
    ∀ (s : List Char) (acc : List Char),
      (∃ c ∈ s, c.isWhitespace = false) → pySplitAux s acc ≠ [] := by
  intro s
  induction s with
  | nil =>
    intro acc h
    obtain ⟨d, hd, _⟩ := h
    simp at hd
  | cons c cs ih =>
    intro acc h
    obtain ⟨d, hd, hdw⟩ := h
    simp only [pySplitAux]
    split_ifs with h1 h2
    · refine ih [] ⟨d, ?_, hdw⟩
      rcases List.mem_cons.1 hd with hd | hd
      · subst hd; rw [h1] at hdw; simp at hdw
      · exact hd
    · simp
    · exact pySplitAux_ne_nil_of_acc cs (c :: acc) (by simp)

theorem initialsOf_isSome :
    ∀ ps : List (List Char), (∀ p ∈ ps, p ≠ []) →
      (initialsOf ps).isSome = true := by
  intro ps
  induction ps with
  | nil => intro h; rfl
  | cons p rest ih =>
    intro h
    have hp : p ≠ [] := h p (List.mem_cons_self _ _)
    rcases p with _ | ⟨c, cs⟩
    · exact absurd rfl hp
    · have hrest := ih (fun q hq => h q (List.mem_cons_of_mem _ hq))
      rcases hi : initialsOf rest with _ | rs
      · rw [hi] at hrest; simp at hrest
      · simp only [initialsOf, List.head?, hi]
        rfl

theorem format_author_name_isSome (a : String)
    (h : a = "" ∨ ∃ c ∈ a.toList, c.isWhitespace = false) :
    (format_author_name a).isSome = true := by
  by_cases ha : a = ""
  · simp [format_author_name, ha]
  · have hex : ∃ c ∈ a.toList, c.isWhitespace = false := h.resolve_left ha
    have hne : pySplit a.toList ≠ [] :=
      pySplitAux_ne_nil_of_content a.toList [] hex
    have hwords : ∀ w ∈ pySplit a.toList, w ≠ [] :=
      pySplitAux_words_nonempty a.toList []
    simp only [format_author_name, if_neg ha]
    rcases hps : pySplit a.toList with _ | ⟨p1, _ | ⟨p2, _ | ⟨p3, rest⟩⟩⟩
    · exact absurd hps hne
    · simp
    · have hp1 : p1 ≠ [] := hwords p1 (by rw [hps]; simp)
      rcases p1 with _ | ⟨c, cs⟩
      · exact absurd rfl hp1
      · simp [List.head?]
    · have hinit : (initialsOf (p1 :: p2 :: p3 :: rest).dropLast).isSome = true :=
        initialsOf_isSome _
          (fun q hq => hwords q (by rw [hps]; exact List.dropLast_subset _ hq))
      rcases hl : (p1 :: p2 :: p3 :: rest).getLast? with _ | last
      · simp at hl
      · rcases hi : initialsOf (p1 :: p2 :: p3 :: rest).dropLast with _ | inits
        · rw [hi] at hinit; simp at hinit
        · simp only [hl]
          rw [hi]
          rfl

/-- C10 (amended): `format_citation` returns a formatted string for every
source whose author names each are empty or contain at least one
non-whitespace character; a non-empty, all-whitespace author name instead
propagates an `IndexError` from `_format_author_name` (embedded as `none`),
so the function is not total over arbitrary author string lists. -/
theorem format_citation_total_amended :
    ∀ (monthYear : String → Option String) (source : CitSource) (n : Nat),
      (∀ a ∈ source.authors, a = "" ∨ ∃ c ∈ a.toList, c.isWhitespace = false) →
      (format_citation monthYear source n).isSome = true := by
  intro monthYear source n h
  simp only [format_citation]
  rcases hA : source.authors with _ | ⟨a, _ | ⟨b, _ | ⟨c0, rest⟩⟩⟩
  · simp
  · have ha := format_author_name_isSome a (h a (by rw [hA]; simp))
    rcases hfa : format_author_name a with _ | fa
    · rw [hfa] at ha; simp at ha
    · simp [hfa]
  · have ha := format_author_name_isSome a (h a (by rw [hA]; simp))
    have hb := format_author_name_isSome b (h b (by rw [hA]; simp))
    rcases hfa : format_author_name a with _ | fa
    · rw [hfa] at ha; simp at ha
    rcases hfb : format_author_name b with _ | fb
    · rw [hfb] at hb; simp at hb
    simp [hfa, hfb]
  · have ha := format_author_name_isSome a (h a (by rw [hA]; simp))
    rcases hfa : format_author_name a with _ | fa
    · rw [hfa] at ha; simp at ha
    · simp [hfa]

/-- C10 witness: a concrete source with a well-formed two-token author name
formats successfully. -/
theorem format_citation_total_witness :
    (format_citation (fun _ => none)
      { url := "u", title := "T", authors := ["Ada Lovelace"] } 1).isSome = true :=
  format_citation_total_amended (fun _ => none)
    { url := "u", title := "T", authors := ["Ada Lovelace"] } 1 (by decide)
